import Mathlib

/-!
Verification development for the bili_downloader repository.

The definitions below are a shallow embedding of the Python sources
`src/download/video_downloader.py` and `src/gui/download_thread.py`.
Pure functions are translated directly; the stateful download / merge
pipeline is modelled with explicit environments describing what the
abstract HTTP transport and the external merge tool would do, and with
an explicit record of which files exist.  Python dictionaries with
optional keys are modelled with `Option` fields, and each `dict.get`
call site applies the source's own default value.
-/

namespace BiliDownloader

section SortBy

variable {α : Type} (le : α → α → Bool)

/-- Stable insertion of `x` in front of the first element it is `le` to.
Together with `sortByLe` this models Python's stable `sorted`: an element
inserted from the left ends up before every later element of equal key. -/
def insertByLe (x : α) : List α → List α
  | [] => [x]
  | y :: ys => if le x y then x :: y :: ys else y :: insertByLe x ys

/-- Model of Python's stable `sorted(l, key=...)` (insertion sort; for a
total transitive comparison this is exactly the stable sort). -/
def sortByLe : List α → List α
  | [] => []
  | x :: xs => insertByLe le x (sortByLe xs)

/-- First element of the list that is `le`-minimal (ties keep the earliest
occurrence); the specification-side description of `sortByLe ∘ head?`. -/
def firstMinByLe : List α → Option α
  | [] => none
  | x :: xs =>
    match firstMinByLe xs with
    | none => some x
    | some m => if le x m then some x else some m

end SortBy

/-- Python `list.index` returning `none` instead of raising `ValueError`
(the call sites wrap `.index` in `try/except ValueError`). -/
def pyIndex (x : Nat) : List Nat → Option Nat
  | [] => none
  | y :: ys => if y = x then some 0 else (pyIndex x ys).map (· + 1)

/-- Python substring test `pat in s`, on explicit character lists. -/
def hasSubstring : List Char → List Char → Bool
  | l, pat =>
    if pat.isPrefixOf l then true
    else match l with
      | [] => false
      | _ :: t => hasSubstring t pat

/-- Python `str.lower()` (character-wise ASCII lowering; the codec strings
compared in the source are ASCII). -/
def pyLower (s : String) : String := ⟨s.data.map Char.toLower⟩

/-- Python's lexicographic comparison of `(int, int)` tuples, as used by
`sorted(..., key=sort_key)` on the `(quality_rank, codec_rank)` keys. -/
def pairLE (a b : Nat × Nat) : Bool :=
  decide (a.1 < b.1) || (decide (a.1 = b.1) && decide (a.2 ≤ b.2))

/-- One selectable elementary stream, as the dictionaries the source reads
with `stream.get("id", ...)` and `stream.get("codecs", "")`: both keys may
be absent, hence `Option` fields. -/
structure StreamDesc where
  id : Option Nat
  codecs : Option String
  deriving Repr, DecidableEq

/-- The `dash` dictionary of a download-url response as the source reads it:
`dash_data.get("video", [])`, `dash_data.get("audio", [])`,
`dash_data.get("flac")` (whose truthiness plus a truthy `"audio"` member is
modelled by `flac = some stream`), and `dash_data.get("dolby")` (whose
truthy `"audio"` list is modelled by `dolby = some list`; a dolby entry
with a falsy audio list is `dolby = some []`). -/
structure DashData where
  video : List StreamDesc
  audio : List StreamDesc
  flac : Option StreamDesc
  dolby : Option (List StreamDesc)
  deriving Repr, DecidableEq

/-- `AUDIO_QUALITY_PRIORITY` from `video_downloader.py`. -/
def AUDIO_QUALITY_PRIORITY : List Nat := [30251, 30250, 30280, 30232, 30216]

/-- `VIDEO_QUALITY_PRIORITY` from `video_downloader.py`. -/
def VIDEO_QUALITY_PRIORITY : List Nat :=
  [127, 126, 125, 120, 116, 112, 80, 74, 64, 32, 16]

/-- `CODEC_PRIORITY` from `video_downloader.py`. -/
def CODEC_PRIORITY : List String := ["hev", "av01", "avc"]

/-- The `for i, codec in enumerate(CODEC_PRIORITY): if codec in codecs: ...`
loop of `sort_key`: first matching index, else 999. -/
def codecRankAux : List String → Nat → String → Nat
  | [], _, _ => 999
  | p :: ps, i, codecs =>
    if hasSubstring codecs.data p.data then i else codecRankAux ps (i + 1) codecs

/-- Codec rank of a stream: `codecs = stream.get("codecs", "").lower()`,
then the first `CODEC_PRIORITY` index whose entry is a substring, else 999. -/
def codec_rank (s : StreamDesc) : Nat :=
  codecRankAux CODEC_PRIORITY 0 (pyLower (s.codecs.getD ""))

/-- Quality rank of a stream: `VIDEO_QUALITY_PRIORITY.index(stream.get("id", 0))`
with `ValueError` mapped to 999. -/
def quality_rank (s : StreamDesc) : Nat :=
  (pyIndex (s.id.getD 0) VIDEO_QUALITY_PRIORITY).getD 999

/-- The `sort_key` closure of `select_best_video_stream`. -/
def sort_key (s : StreamDesc) : Nat × Nat := (quality_rank s, codec_rank s)

/-- Comparison used by `sorted(video_streams, key=sort_key)` (Python compares
the key tuples lexicographically). -/
def streamLE (a b : StreamDesc) : Bool := pairLE (sort_key a) (sort_key b)

/-- `select_best_video_stream` from `video_downloader.py`: return `None` on
an empty (falsy) stream list, else the head of the stable sort by
`(quality_rank, codec_rank)`. -/
def select_best_video_stream (d : DashData) : Option StreamDesc :=
  if d.video.isEmpty then none
  else (sortByLe streamLE d.video).head?

/-- Comparison used by `matching_streams.sort(key=codec_rank)` in
`DownloadThread._select_video_stream`. -/
def codecLE (a b : StreamDesc) : Bool := decide (codec_rank a ≤ codec_rank b)

/-- `DownloadThread._select_video_stream` from `download_thread.py`:
`quality == 0` means automatic; otherwise filter on
`s.get("id") == self.quality`, sort the non-empty filtered list by codec
rank (stable `list.sort`) and take the first, falling back to the
automatic selection when the filtered list is empty. -/
def select_video_stream (quality : Nat) (d : DashData) : Option StreamDesc :=
  if quality = 0 then select_best_video_stream d
  else
    let matching := d.video.filter (fun s => s.id == some quality)
    match matching with
    | [] => select_best_video_stream d
    | _ :: _ => (sortByLe codecLE matching).head?

/-- Rank of an `audioStreams` entry: `AUDIO_QUALITY_PRIORITY.index(stream.get("id", 0))`
with `ValueError` mapped to the 999 sentinel. -/
def rankStd (s : StreamDesc) : Nat :=
  (pyIndex (s.id.getD 0) AUDIO_QUALITY_PRIORITY).getD 999

/-- Rank of the flac (lossless) candidate: default id 30251 as in
`flac_audio.get("id", 30251)`. -/
def rankFlac (s : StreamDesc) : Nat :=
  (pyIndex (s.id.getD 30251) AUDIO_QUALITY_PRIORITY).getD 999

/-- Rank of the dolby (spatial) candidate: default id 30250 as in
`dolby_audio.get("id", 30250)`. -/
def rankDolby (s : StreamDesc) : Nat :=
  (pyIndex (s.id.getD 30250) AUDIO_QUALITY_PRIORITY).getD 999

/-- Body of the `for stream in audio_streams` loop of
`select_best_audio_stream`, acting on the `(best_audio, best_priority)`
pair: a ranked id replaces the best on strictly smaller priority; an
unranked id is adopted only while `best_audio is None` (leaving
`best_priority` unchanged). -/
def audioFoldStep (st : Option StreamDesc × Nat) (s : StreamDesc) :
    Option StreamDesc × Nat :=
  match pyIndex (s.id.getD 0) AUDIO_QUALITY_PRIORITY with
  | some p => if p < st.2 then (some s, p) else st
  | none =>
    match st.1 with
    | none => (some s, st.2)
    | some _ => st

/-- State after the `audio_streams` loop (initial best `None`, priority 999). -/
def stdAudioState (d : DashData) : Option StreamDesc × Nat :=
  d.audio.foldl audioFoldStep (none, 999)

/-- The `flac` block of `select_best_audio_stream`: replace only on a
strictly smaller table rank; an unknown id (`ValueError`) is ignored. -/
def flacStep (d : DashData) (st : Option StreamDesc × Nat) :
    Option StreamDesc × Nat :=
  match d.flac with
  | none => st
  | some fa =>
    match pyIndex (fa.id.getD 30251) AUDIO_QUALITY_PRIORITY with
    | some p => if p < st.2 then (some fa, p) else st
    | none => st

/-- The `dolby` block: takes the first element of the dolby audio list and
replaces only on a strictly smaller table rank. -/
def dolbyStep (d : DashData) (st : Option StreamDesc × Nat) :
    Option StreamDesc × Nat :=
  match d.dolby with
  | none => st
  | some [] => st
  | some (da :: _) =>
    match pyIndex (da.id.getD 30250) AUDIO_QUALITY_PRIORITY with
    | some p => if p < st.2 then (some da, p) else st
    | none => st

/-- Final `(best_audio, best_priority)` state of `select_best_audio_stream`. -/
def audioState (d : DashData) : Option StreamDesc × Nat :=
  dolbyStep d (flacStep d (stdAudioState d))

/-- `select_best_audio_stream` from `video_downloader.py`. -/
def select_best_audio_stream (d : DashData) : Option StreamDesc :=
  (audioState d).1

/-- Invariant of the audio-selection state: while no candidate is chosen the
priority is still 999, and once a candidate is chosen the recorded priority
is that candidate's rank (at one of the three call-site defaults). -/
def stInv (st : Option StreamDesc × Nat) : Prop :=
  (st.1 = none → st.2 = 999) ∧
  (∀ b, st.1 = some b →
    st.2 = rankStd b ∨ st.2 = rankFlac b ∨ st.2 = rankDolby b)

/-- Exit status of the chunked download loop: bytes written so far, plus on
success the chunk list the loop never consumed. -/
inductive RunRes where
  | success (written : Nat) (remaining : List Nat)
  | failed (written : Nat)
  | cancelledLoop (written : Nat)
  deriving Repr, DecidableEq

/-- Whether the shared `_cancelled` flag is observed set at loop iteration
`i`: the flag is set once and stays set, modelled by the first iteration at
which it is visible (`none` = never set, and the CLI loop has no check). -/
def cancelHit (cancelAt : Option Nat) (i : Nat) : Bool :=
  match cancelAt with
  | some n => decide (n ≤ i)
  | none => false

/-- The chunked download loop shared by `download_stream`
(`video_downloader.py`, `cancelAt = none`: no cancellation check) and
`DownloadThread._download_stream_with_progress` (`download_thread.py`):
`while current < total`, check the cancellation flag, read a chunk
(`chunks` lists the sizes the transport would deliver; `excAt = some i`
means the `i`-th read raises), break on an empty chunk, else write and
accumulate `current += len(chunk)`. -/
def runStreamGo (total : Nat) (cancelAt excAt : Option Nat) :
    Nat → Nat → List Nat → RunRes
  | i, current, [] =>
    if current < total then
      if cancelHit cancelAt i then .cancelledLoop current
      else if excAt = some i then .failed current
      else .success current []
    else .success current []
  | i, current, c :: cs =>
    if current < total then
      if cancelHit cancelAt i then .cancelledLoop current
      else if excAt = some i then .failed current
      else if c = 0 then .success current (c :: cs)
      else runStreamGo total cancelAt excAt (i + 1) (current + c) cs
    else .success current (c :: cs)

/-- The download loop started at iteration 0 with 0 bytes written. -/
def runStream (total : Nat) (chunks : List Nat)
    (cancelAt excAt : Option Nat) : RunRes :=
  runStreamGo total cancelAt excAt 0 0 chunks

/-- Transport behaviour for one stream download: `excAtCreate` models
`download_create` / `download_content_length` raising (before the output
file is opened), `total` the reported content length, `chunks` the chunk
sizes the transport would deliver, `excAt` an iteration at which
`download_chunk` raises. -/
structure StreamRun where
  excAtCreate : Bool
  total : Nat
  chunks : List Nat
  excAt : Option Nat
  deriving Repr, DecidableEq

/-- `download_stream` from `video_downloader.py`: the returned boolean paired
with the final state of the destination file (`none` = never created,
`some w` = exists holding `w` bytes).  The `except` clause prints and
returns `False` without deleting the partial file.  The `cancelledLoop`
arm is unreachable here because this loop has no cancellation check. -/
def download_stream (r : StreamRun) : Bool × Option Nat :=
  if r.excAtCreate then (false, none)
  else
    match runStream r.total r.chunks none r.excAt with
    | .success w _ => (true, some w)
    | .failed w => (false, some w)
    | .cancelledLoop w => (false, some w)

/-- Sum of the first `i` chunk sizes: the bytes accumulated before loop
iteration `i`. -/
def prefixSum (cs : List Nat) (i : Nat) : Nat := (cs.take i).sum

/-- Which files of one job exist: the two scratch temp files and the final
output. -/
structure Files where
  tempVideo : Bool
  tempAudio : Bool
  final : Bool
  deriving Repr, DecidableEq

/-- Outcome of `merge_video_audio`, one per distinct source branch (missing
ffmpeg / subprocess exception / non-zero exit / success); the Python
function returns `True` exactly for `ok`. -/
inductive MergeResult where
  | toolMissing
  | runExc
  | mergeFailed
  | ok
  deriving Repr, DecidableEq

/-- Behaviour of the external merge tool: whether `check_ffmpeg()` reports it
invocable, whether `subprocess.run` raises, and its exit code otherwise. -/
structure MergeEnv where
  ffmpegOk : Bool
  runRaises : Bool
  exitCode : Nat
  deriving Repr, DecidableEq

/-- `merge_video_audio` from `video_downloader.py`, acting on the job's
files: a missing tool, an exception or a non-zero exit return `False`
leaving every file as it was; a zero exit writes the output and unlinks
both temp inputs. -/
def merge_video_audio (e : MergeEnv) (fs : Files) : MergeResult × Files :=
  if !e.ffmpegOk then (.toolMissing, fs)
  else if e.runRaises then (.runExc, fs)
  else if e.exitCode ≠ 0 then (.mergeFailed, fs)
  else (.ok, { fs with tempVideo := false, tempAudio := false, final := true })

/-- Result of `DownloadThread._download_stream_with_progress`: `ok` is the
`True` return; `fail` (exception) and `cancelled` (flag observed inside the
loop) both return `False` to the caller, which cannot tell them apart.
`created` records whether the output file was opened (it is, except when
the transport raises before `open`). -/
inductive GuiDl where
  | ok (bytes : Nat)
  | fail (created : Bool) (bytes : Nat)
  | cancelled (bytes : Nat)
  deriving Repr, DecidableEq

/-- Run one GUI stream download against the transport model. -/
def runGuiStream (r : StreamRun) (cancelAt : Option Nat) : GuiDl :=
  if r.excAtCreate then .fail false 0
  else
    match runStream r.total r.chunks cancelAt r.excAt with
    | .success w _ => .ok w
    | .failed w => .fail true w
    | .cancelledLoop w => .cancelled w

/-- The boolean the Python function returns. -/
def GuiDl.isOk : GuiDl → Bool
  | .ok _ => true
  | _ => false

/-- Whether the destination file was created (opened) by the download. -/
def GuiDl.fileCreated : GuiDl → Bool
  | .ok _ => true
  | .cancelled _ => true
  | .fail c _ => c

/-- Environment for the DASH downloading stages of `DownloadThread._download`
(from the point where the stream URLs are known): transport behaviour and
cancellation observations for each stream, whether a separate audio stream
was selected, the flag value at the two inter-stage checkpoints, and the
merge tool behaviour. -/
structure GuiEnv where
  videoRun : StreamRun
  videoCancelAt : Option Nat
  cancelAfterVideo : Bool
  hasAudio : Bool
  audioRun : StreamRun
  audioCancelAt : Option Nat
  cancelAfterAudio : Bool
  merge : MergeEnv
  deriving Repr, DecidableEq

/-- Failure message of the video-stream stage in `DownloadThread._download`. -/
def MSG_VIDEO_FAILED : String := "下载视频流失败"

/-- Failure message of the audio-stream stage. -/
def MSG_AUDIO_FAILED : String := "下载音频流失败"

/-- Message returned when the cancellation flag is seen at a checkpoint. -/
def MSG_CANCELLED : String := "下载已取消"

/-- Message returned when `merge_video_audio` returns `False`. -/
def MSG_MERGE_FAILED : String := "合并音视频失败"

/-- Stand-in for the success message (the source appends path and size). -/
def MSG_DONE : String := "下载完成"

/-- The DASH downloading and merging stages of `DownloadThread._download`
(`download_thread.py` lines 248-298): download video to a temp file
(unlink it and report the stream failure when the loop returns `False`),
check the cancellation flag, download audio likewise when a separate audio
stream exists, merge (leaving temps in place on merge failure), or rename
the video temp when there is no audio. -/
def guiDashJob (e : GuiEnv) : (Bool × String) × Files :=
  let vres := runGuiStream e.videoRun e.videoCancelAt
  let fs : Files := ⟨vres.fileCreated, false, false⟩
  if !vres.isOk then
    ((false, MSG_VIDEO_FAILED), { fs with tempVideo := false })
  else if e.cancelAfterVideo then
    ((false, MSG_CANCELLED), { fs with tempVideo := false })
  else if e.hasAudio then
    let ares := runGuiStream e.audioRun e.audioCancelAt
    let fs : Files := { fs with tempAudio := ares.fileCreated }
    if !ares.isOk then
      ((false, MSG_AUDIO_FAILED), { fs with tempVideo := false, tempAudio := false })
    else if e.cancelAfterAudio then
      ((false, MSG_CANCELLED), { fs with tempVideo := false, tempAudio := false })
    else
      let m := merge_video_audio e.merge fs
      if m.1 = .ok then ((true, MSG_DONE), m.2)
      else ((false, MSG_MERGE_FAILED), m.2)
  else
    ((true, MSG_DONE), { fs with tempVideo := false, final := true })

/-- The DASH downloading and merging stages of `download_video_async`
(`video_downloader.py` lines 424-441): a video-stream failure returns
`False` without unlinking anything; an audio-stream failure unlinks only the
video temp file; merging or renaming as in the GUI path.  There is no
cancellation in this path. -/
def cliDashJob (videoRun audioRun : StreamRun) (hasAudio : Bool)
    (me : MergeEnv) : Bool × Files :=
  let vr := download_stream videoRun
  let fs : Files := ⟨vr.2.isSome, false, false⟩
  if !vr.1 then (false, fs)
  else if hasAudio then
    let ar := download_stream audioRun
    let fs : Files := { fs with tempAudio := ar.2.isSome }
    if !ar.1 then (false, { fs with tempVideo := false })
    else
      let m := merge_video_audio me fs
      if m.1 = .ok then (true, m.2) else (false, m.2)
  else (true, { fs with tempVideo := false, final := true })

/-- Characters matched by the `illegal_chars` regex of `sanitize_filename`:
the nine listed punctuation characters and the control range 0x00-0x1f. -/
def illegalChar (c : Char) : Bool :=
  c == '<' || c == '>' || c == ':' || c == '"' || c == '/' || c == '\\' ||
    c == '|' || c == '?' || c == '*' || decide (c.toNat ≤ 0x1f)

/-- Python `str.strip(chars)`: drop the given characters from both ends. -/
def pyStripChars (bad : Char → Bool) (l : List Char) : List Char :=
  (l.dropWhile bad).rdropWhile bad

/-- `sanitize_filename` from `video_downloader.py`: `re.sub` replaces each
illegal character with an underscore, `strip(' .')` trims leading and
trailing spaces and dots, the result is truncated to `maxLength`
characters, and the empty string falls back to `"video"`. -/
def sanitize_filename (s : String) (maxLength : Nat := 200) : String :=
  let l := s.data.map (fun c => if illegalChar c then '_' else c)
  let l := pyStripChars (fun c => c == ' ' || c == '.') l
  let l := if l.length > maxLength then l.take maxLength else l
  if l.isEmpty then "video" else ⟨l⟩

/-- Python whitespace for `str.strip()` / leading `int()` tolerance. -/
def pySpace (c : Char) : Bool := c.isWhitespace

/-- Python `str.strip()`: trim whitespace from both ends. -/
def pyStrip (s : String) : String := ⟨pyStripChars pySpace s.data⟩

/-- `url.upper().startswith("BV")`: the first two characters uppercase to
`B` and `V`. -/
def startsWithBVupper (l : List Char) : Bool :=
  match l with
  | b :: v :: _ => b.toUpper == 'B' && v.toUpper == 'V'
  | _ => false

/-- Value of a non-empty decimal digit string. -/
def digitsToNat (ds : List Char) : Nat :=
  ds.foldl (fun n c => n * 10 + (c.toNat - '0'.toNat)) 0

/-- The full-string regex `^av(\d+)$` with `re.IGNORECASE` (ASCII digits). -/
def matchAvFull (l : List Char) : Option Nat :=
  match l with
  | a :: v :: ds =>
    if a.toUpper == 'A' && v.toUpper == 'V' && !ds.isEmpty &&
        ds.all Char.isDigit
    then some (digitsToNat ds) else none
  | _ => none

/-- Characters allowed in a URL scheme after the leading letter. -/
def schemeChar (c : Char) : Bool :=
  c.isAlphanum || c == '+' || c == '-' || c == '.'

/-- Drop a leading `scheme:` as `urllib.parse.urlparse` recognises it: a
leading letter followed by scheme characters up to the first colon. -/
def stripScheme (l : List Char) : List Char :=
  match l.findIdx? (· == ':') with
  | none => l
  | some i =>
    if 0 < i then
      match l.head? with
      | some c0 =>
        if c0.isAlpha && (l.take i).all schemeChar then l.drop (i + 1) else l
      | none => l
    else l

/-- Drop a leading `//netloc` component (up to the next `/`, `?` or `#`). -/
def dropNetloc (l : List Char) : List Char :=
  match l with
  | '/' :: '/' :: rest =>
    rest.dropWhile (fun c => !(c == '/' || c == '?' || c == '#'))
  | _ => l

/-- Split at the first occurrence of `ch`: the part before, and the part
after when `ch` occurs. -/
def splitFirst (ch : Char) : List Char → List Char × Option (List Char)
  | [] => ([], none)
  | c :: cs =>
    if c == ch then ([], some cs)
    else
      let r := splitFirst ch cs
      (c :: r.1, r.2)

/-- Model of `urllib.parse.urlparse(url)` restricted to the `(path, query)`
pair the source reads: strip the scheme, drop the netloc, cut the fragment
at the first `#`, then split path from query at the first `?`.
Percent-decoding is not modelled (the ids and page numbers the source
extracts are plain ASCII). -/
def pyUrlparse (s : String) : String × String :=
  let l := dropNetloc (stripScheme s.data)
  let l := (splitFirst '#' l).1
  let pq := splitFirst '?' l
  (⟨pq.1⟩, ⟨pq.2.getD []⟩)

/-- Try the regex `BV[a-zA-Z0-9]{10}` (case-insensitive on the `BV`) at the
head of the list, returning the 12-character match. -/
def bvHere (l : List Char) : Option (List Char) :=
  match l with
  | b :: v :: rest =>
    if b.toUpper == 'B' && v.toUpper == 'V' &&
        (rest.take 10).length == 10 && (rest.take 10).all Char.isAlphanum
    then some (b :: v :: rest.take 10) else none
  | _ => none

/-- `re.search(r'(BV[a-zA-Z0-9]{10})', path, re.IGNORECASE)`: leftmost
match. -/
def findBV : List Char → Option (List Char)
  | [] => none
  | c :: cs =>
    match bvHere (c :: cs) with
    | some g => some g
    | none => findBV cs

/-- Try the regex `av(\d+)` (case-insensitive) at the head of the list,
taking the maximal digit run. -/
def avHere (l : List Char) : Option Nat :=
  match l with
  | a :: v :: rest =>
    if a.toUpper == 'A' && v.toUpper == 'V' &&
        !(rest.takeWhile Char.isDigit).isEmpty
    then some (digitsToNat (rest.takeWhile Char.isDigit)) else none
  | _ => none

/-- `re.search(r'av(\d+)', path, re.IGNORECASE)`: leftmost match. -/
def findAV : List Char → Option Nat
  | [] => none
  | c :: cs =>
    match avHere (c :: cs) with
    | some n => some n
    | none => findAV cs

/-- Split a query string at every `&` (`urllib.parse.parse_qs` separator). -/
def splitAll (ch : Char) : List Char → List (List Char)
  | [] => [[]]
  | c :: cs =>
    if c == ch then [] :: splitAll ch cs
    else
      match splitAll ch cs with
      | [] => [[c]]
      | g :: gs => (c :: g) :: gs

/-- First value of the query parameter `p` as `parse_qs(query)['p'][0]`
sees it: pieces without `=` or with an empty value are skipped
(`keep_blank_values` is false); percent-decoding is not modelled. -/
def getParamP : List (List Char) → Option (List Char)
  | [] => none
  | piece :: rest =>
    match splitFirst '=' piece with
    | (k, some v) =>
      if k == ['p'] && !v.isEmpty then some v else getParamP rest
    | (_, none) => getParamP rest

/-- Python `int(str)` for base 10: optional surrounding whitespace, optional
sign, then decimal digits; anything else raises (`none`).  Underscore
grouping is not modelled. -/
def pyInt (l : List Char) : Option Int :=
  let l := pyStripChars pySpace l
  match l with
  | '-' :: ds =>
    if !ds.isEmpty && ds.all Char.isDigit then some (-(digitsToNat ds : Int))
    else none
  | '+' :: ds =>
    if !ds.isEmpty && ds.all Char.isDigit then some (digitsToNat ds : Int)
    else none
  | ds =>
    if !ds.isEmpty && ds.all Char.isDigit then some (digitsToNat ds : Int)
    else none

/-- `parse_video_url` from `video_downloader.py`: returns
`(bvid, aid, page)`.  A raw `BV...` string of length at most 12 or a raw
`av<digits>` string short-circuits with page 1; otherwise the URL's path is
searched for a BV or av id and the `p` query parameter is parsed with
`int()`; any exception inside the `try` block (here: a `p` value `int()`
rejects) falls through to `(None, None, 1)`. -/
def parse_video_url (url0 : String) : Option String × Option Nat × Int :=
  let url := pyStrip url0
  if startsWithBVupper url.data && decide (url.length ≤ 12) then
    (some url, none, 1)
  else
    match matchAvFull url.data with
    | some n => (none, some n, 1)
    | none =>
      let pq := pyUrlparse url
      let pieces := splitAll '&' pq.2.data
      match findBV pq.1.data with
      | some bv =>
        match getParamP pieces with
        | none => (some ⟨bv⟩, none, 1)
        | some v =>
          match pyInt v with
          | some p => (some ⟨bv⟩, none, p)
          | none => (none, none, 1)
      | none =>
        match findAV pq.1.data with
        | some n =>
          match getParamP pieces with
          | none => (none, some n, 1)
          | some v =>
            match pyInt v with
            | some p => (none, some n, p)
            | none => (none, none, 1)
        | none => (none, none, 1)

section SortByLemmas

variable {α : Type} (le : α → α → Bool)

theorem length_insertByLe (x : α) (l : List α) :
    (insertByLe le x l).length = l.length + 1 := by
  induction l with
  | nil => rfl
  | cons y ys ih =>
    unfold insertByLe
    by_cases h : le x y = true
    · simp [h]
    · simp [h, ih]

theorem sortByLe_eq_nil_iff (l : List α) : sortByLe le l = [] ↔ l = [] := by
  cases l with
  | nil => simp [sortByLe]
  | cons x xs =>
    simp only [sortByLe]
    constructor
    · intro h
      have := length_insertByLe le x (sortByLe le xs)
      rw [h] at this
      simp at this
    · intro h
      exact absurd h (by simp)

theorem head?_insertByLe (x : α) (l : List α) :
    (insertByLe le x l).head? =
      some (match l.head? with
            | none => x
            | some y => if le x y then x else y) := by
  cases l with
  | nil => rfl
  | cons y ys =>
    unfold insertByLe
    by_cases h : le x y = true
    · simp [h]
    · simp [h]

theorem head?_sortByLe (l : List α) :
    (sortByLe le l).head? = firstMinByLe le l := by
  induction l with
  | nil => rfl
  | cons x xs ih =>
    unfold sortByLe firstMinByLe
    rw [head?_insertByLe, ← ih]
    cases h : (sortByLe le xs).head? with
    | none => simp
    | some m =>
      by_cases hle : le x m = true <;> simp [hle]

theorem firstMinByLe_eq_none_iff (l : List α) :
    firstMinByLe le l = none ↔ l = [] := by
  cases l with
  | nil => simp [firstMinByLe]
  | cons x xs =>
    simp only [firstMinByLe]
    cases firstMinByLe le xs with
    | none => simp
    | some m =>
      constructor
      · intro h
        by_cases hle : le x m = true <;> simp [hle] at h
      · intro h; exact absurd h (by simp)

theorem firstMinByLe_mem :
    ∀ {l : List α} {m : α}, firstMinByLe le l = some m → m ∈ l
  | [], m, h => by simp [firstMinByLe] at h
  | x :: xs, m, h => by
    simp only [firstMinByLe] at h
    cases hx : firstMinByLe le xs with
    | none =>
      rw [hx] at h
      injection h with h
      rw [← h]
      exact List.mem_cons_self x xs
    | some m' =>
      simp only [hx] at h
      by_cases hle : le x m' = true
      · rw [if_pos hle] at h
        injection h with h
        rw [← h]
        exact List.mem_cons_self x xs
      · rw [if_neg hle] at h
        injection h with h
        rw [← h]
        exact List.mem_cons_of_mem _ (firstMinByLe_mem hx)

theorem firstMinByLe_min
    (htot : ∀ a b, le a b = true ∨ le b a = true)
    (htrans : ∀ a b c, le a b = true → le b c = true → le a c = true) :
    ∀ {l : List α} {m : α},
      firstMinByLe le l = some m → ∀ y ∈ l, le m y = true
  | [], m, h => by simp [firstMinByLe] at h
  | x :: xs, m, h => by
    simp only [firstMinByLe] at h
    cases hx : firstMinByLe le xs with
    | none =>
      rw [hx] at h
      injection h with h
      have hxs : xs = [] := (firstMinByLe_eq_none_iff le xs).mp hx
      subst hxs
      intro y hy
      rw [List.mem_singleton] at hy
      rw [hy, ← h]
      rcases htot x x with h' | h' <;> exact h'
    | some m' =>
      simp only [hx] at h
      have hmin' : ∀ y ∈ xs, le m' y = true :=
        firstMinByLe_min htot htrans hx
      by_cases hle : le x m' = true
      · rw [if_pos hle] at h
        injection h with h
        intro y hy
        rw [← h]
        rcases List.mem_cons.mp hy with hy' | hy'
        · rw [hy']
          rcases htot x x with h' | h' <;> exact h'
        · exact htrans _ _ _ hle (hmin' y hy')
      · rw [if_neg hle] at h
        injection h with h
        intro y hy
        rw [← h]
        rcases List.mem_cons.mp hy with hy' | hy'
        · rw [hy']
          rcases htot x m' with h' | h'
          · exact absurd h' hle
          · exact h'
        · exact hmin' y hy'

theorem find?_congr_mem {p q : α → Bool} :
    ∀ (l : List α), (∀ x ∈ l, p x = q x) → l.find? p = l.find? q
  | [], _ => rfl
  | x :: xs, h => by
    have hx : p x = q x := h x (by simp)
    by_cases hp : p x = true
    · rw [List.find?_cons_of_pos _ hp, List.find?_cons_of_pos _ (hx ▸ hp)]
    · have hq : ¬ q x = true := by rw [← hx]; exact hp
      rw [List.find?_cons_of_neg _ hp, List.find?_cons_of_neg _ hq]
      exact find?_congr_mem xs (fun y hy => h y (List.mem_cons_of_mem _ hy))

/-- The first `le`-minimal element is exactly the first list element that is
`le` everything in the list: this is the stability statement for the head
of the stable sort. -/
theorem firstMinByLe_eq_find?
    (htot : ∀ a b, le a b = true ∨ le b a = true)
    (htrans : ∀ a b c, le a b = true → le b c = true → le a c = true) :
    ∀ (l : List α), firstMinByLe le l = l.find? (fun x => l.all (fun y => le x y))
  | [] => rfl
  | x :: xs => by
    cases hx : firstMinByLe le xs with
    | none =>
      have hxs : xs = [] := (firstMinByLe_eq_none_iff le xs).mp hx
      subst hxs
      have : le x x = true := by rcases htot x x with h | h <;> exact h
      simp [firstMinByLe, List.find?, this]
    | some m =>
      have hm : m ∈ xs := firstMinByLe_mem le hx
      have hmin : ∀ y ∈ xs, le m y = true := firstMinByLe_min le htot htrans hx
      simp only [firstMinByLe, hx]
      by_cases hle : le x m = true
      · have hall : ∀ y ∈ x :: xs, le x y = true := by
          intro y hy
          rcases List.mem_cons.mp hy with hy' | hy'
          · rw [hy']
            rcases htot x x with h | h <;> exact h
          · exact htrans _ _ _ hle (hmin y hy')
        have hpx : (x :: xs).all (fun y => le x y) = true := by
          rw [List.all_eq_true]; exact hall
        rw [List.find?_cons]
        simp only [hpx, if_pos hle]
      · have hmx : le m x = true := by
          rcases htot x m with h | h
          · exact absurd h hle
          · exact h
        have hpx : (x :: xs).all (fun y => le x y) = false := by
          rw [Bool.eq_false_iff]
          intro hall
          rw [List.all_eq_true] at hall
          exact hle (hall m (List.mem_cons_of_mem _ hm))
        rw [List.find?_cons]
        simp only [hpx, if_neg hle]
        rw [← hx, firstMinByLe_eq_find? htot htrans xs]
        apply find?_congr_mem
        intro z hz
        by_cases hza : xs.all (fun y => le z y) = true
        · have hzx : le z x = true := by
            rw [List.all_eq_true] at hza
            exact htrans _ _ _ (hza m hm) hmx
          simp only [List.all_cons, hza, hzx, Bool.and_self]
        · rw [Bool.not_eq_true] at hza
          have hzc : (x :: xs).all (fun y => le z y) = false := by
            rw [List.all_cons, hza, Bool.and_false]
          rw [hza, hzc]

end SortByLemmas

theorem pairLE_total (a b : Nat × Nat) : pairLE a b = true ∨ pairLE b a = true := by
  simp only [pairLE, Bool.or_eq_true, Bool.and_eq_true, decide_eq_true_eq]
  omega

theorem pairLE_trans (a b c : Nat × Nat) :
    pairLE a b = true → pairLE b c = true → pairLE a c = true := by
  simp only [pairLE, Bool.or_eq_true, Bool.and_eq_true, decide_eq_true_eq]
  omega

theorem streamLE_total (a b : StreamDesc) : streamLE a b = true ∨ streamLE b a = true :=
  pairLE_total _ _

theorem streamLE_trans (a b c : StreamDesc) :
    streamLE a b = true → streamLE b c = true → streamLE a c = true :=
  pairLE_trans _ _ _

theorem codecLE_total (a b : StreamDesc) : codecLE a b = true ∨ codecLE b a = true := by
  simp only [codecLE, decide_eq_true_eq]
  omega

theorem codecLE_trans (a b c : StreamDesc) :
    codecLE a b = true → codecLE b c = true → codecLE a c = true := by
  simp only [codecLE, decide_eq_true_eq]
  omega

theorem pyIndex_lt_length {x : Nat} :
    ∀ {l : List Nat} {i : Nat}, pyIndex x l = some i → i < l.length
  | [], i, h => by simp [pyIndex] at h
  | y :: ys, i, h => by
    simp only [pyIndex] at h
    by_cases hy : y = x
    · rw [if_pos hy] at h
      injection h with h
      rw [← h]
      simp
    · rw [if_neg hy] at h
      cases hr : pyIndex x ys with
      | none => rw [hr] at h; simp at h
      | some j =>
        rw [hr] at h
        simp at h
        have := pyIndex_lt_length hr
        simp only [List.length_cons]
        omega

theorem quality_rank_cases (s : StreamDesc) :
    quality_rank s ≤ 10 ∨ quality_rank s = 999 := by
  unfold quality_rank
  cases h : pyIndex (s.id.getD 0) VIDEO_QUALITY_PRIORITY with
  | none => right; rfl
  | some i =>
    left
    have hlt := pyIndex_lt_length h
    have hl : VIDEO_QUALITY_PRIORITY.length = 11 := rfl
    rw [hl] at hlt
    simp only [Option.getD_some]
    omega

theorem codecRankAux_cases (c : String) :
    ∀ (ps : List String) (i : Nat),
      codecRankAux ps i c = 999 ∨ codecRankAux ps i c < i + ps.length
  | [], i => Or.inl rfl
  | p :: ps, i => by
    simp only [codecRankAux]
    by_cases hp : hasSubstring c.data p.data = true
    · rw [if_pos hp]
      right
      simp
    · rw [if_neg hp]
      rcases codecRankAux_cases c ps (i + 1) with h | h
      · left; exact h
      · right
        simp only [List.length_cons]
        omega

theorem codec_rank_cases (s : StreamDesc) :
    codec_rank s ≤ 2 ∨ codec_rank s = 999 := by
  unfold codec_rank
  rcases codecRankAux_cases (pyLower (s.codecs.getD "")) CODEC_PRIORITY 0 with h | h
  · right; exact h
  · left
    have hl : CODEC_PRIORITY.length = 3 := rfl
    rw [hl] at h
    omega

/-- Claim C4: for a non-empty video-stream list, automatic selection returns a
descriptor lexicographically minimizing `(quality_rank, codec_rank)` (with the
999 sentinel for unknown ids and codecs); consequently a descriptor with an
unknown quality id never beats one with a known id, and among quality-rank
ties an unknown codec never beats a known codec; for the empty list the
selection is `none`. -/
theorem select_best_video_stream_spec (d : DashData) :
    (select_best_video_stream d = none ↔ d.video = []) ∧
    (∀ r, select_best_video_stream d = some r →
      r ∈ d.video ∧
      (∀ s ∈ d.video, pairLE (sort_key r) (sort_key s) = true) ∧
      ((∃ s ∈ d.video, quality_rank s ≠ 999) → quality_rank r ≠ 999) ∧
      (∀ s ∈ d.video, quality_rank s = quality_rank r →
        codec_rank s ≠ 999 → codec_rank r ≠ 999)) := by
  unfold select_best_video_stream
  by_cases hd : d.video.isEmpty
  · rw [if_pos hd]
    rw [List.isEmpty_iff] at hd
    constructor
    · simp [hd]
    · intro r hr; simp at hr
  · rw [if_neg hd]
    rw [List.isEmpty_iff] at hd
    rw [head?_sortByLe]
    constructor
    · rw [firstMinByLe_eq_none_iff]
    · intro r hr
      have hmem : r ∈ d.video := firstMinByLe_mem streamLE hr
      have hmin : ∀ s ∈ d.video, streamLE r s = true :=
        firstMinByLe_min streamLE streamLE_total streamLE_trans hr
      refine ⟨hmem, hmin, ?_, ?_⟩
      · rintro ⟨s, hs, hqs⟩
        have h1 := hmin s hs
        simp only [streamLE, pairLE, sort_key, Bool.or_eq_true, Bool.and_eq_true,
          decide_eq_true_eq] at h1
        rcases quality_rank_cases s with h2 | h2
        · rcases h1 with h1 | ⟨h1, _⟩ <;> omega
        · exact absurd h2 hqs
      · intro s hs hq hc
        have h1 := hmin s hs
        simp only [streamLE, pairLE, sort_key, Bool.or_eq_true, Bool.and_eq_true,
          decide_eq_true_eq] at h1
        rcases codec_rank_cases s with h2 | h2
        · rcases h1 with h1 | ⟨_, h1⟩ <;> omega
        · exact absurd h2 hc

theorem select_best_video_stream_spec_witness :
    (⟨some 64, some "avc1"⟩ : StreamDesc) ∈
        ([⟨some 999, some "hev1"⟩, ⟨some 64, some "oddcodec"⟩,
          ⟨some 64, some "avc1"⟩] : List StreamDesc) ∧
      ∀ s ∈ ([⟨some 999, some "hev1"⟩, ⟨some 64, some "oddcodec"⟩,
          ⟨some 64, some "avc1"⟩] : List StreamDesc),
        pairLE (sort_key ⟨some 64, some "avc1"⟩) (sort_key s) = true := by
  have h := (select_best_video_stream_spec
    ⟨[⟨some 999, some "hev1"⟩, ⟨some 64, some "oddcodec"⟩, ⟨some 64, some "avc1"⟩],
      [], none, none⟩).2 ⟨some 64, some "avc1"⟩ (by decide)
  exact ⟨h.1, h.2.1⟩

/-- Claim C6: for a requested specific quality id (not the 0 sentinel), the
selection first filters to streams whose id equals the request; a non-empty
filtered list yields a member of it with minimal codec rank, and an empty
filtered list falls back to exactly the automatic selection. -/
theorem select_video_stream_spec (q : Nat) (d : DashData) (hq : q ≠ 0) :
    (d.video.filter (fun s => s.id == some q) = [] →
      select_video_stream q d = select_best_video_stream d) ∧
    (d.video.filter (fun s => s.id == some q) ≠ [] →
      ∃ r, select_video_stream q d = some r ∧
        r ∈ d.video.filter (fun s => s.id == some q) ∧
        ∀ s ∈ d.video.filter (fun s => s.id == some q),
          codec_rank r ≤ codec_rank s) := by
  unfold select_video_stream
  rw [if_neg hq]
  constructor
  · intro h
    simp only [h]
  · intro h
    cases hm : d.video.filter (fun s => s.id == some q) with
    | nil => exact absurd hm h
    | cons a as =>
      simp only [hm]
      have hne : (a :: as) ≠ ([] : List StreamDesc) := by simp
      cases hr : firstMinByLe codecLE (a :: as) with
      | none =>
        rw [firstMinByLe_eq_none_iff] at hr
        exact absurd hr hne
      | some r =>
        refine ⟨r, ?_, ?_, ?_⟩
        · rw [head?_sortByLe, hr]
        · exact firstMinByLe_mem codecLE hr
        · intro s hs
          have := firstMinByLe_min codecLE codecLE_total codecLE_trans hr s hs
          simpa [codecLE] using this

theorem select_video_stream_spec_witness :
    (∃ r, select_video_stream 64
        ⟨[⟨some 64, some "avc1"⟩, ⟨some 80, some "hev1"⟩, ⟨some 64, some "hev1"⟩],
          [], none, none⟩ = some r ∧
      r ∈ (DashData.video ⟨[⟨some 64, some "avc1"⟩, ⟨some 80, some "hev1"⟩,
          ⟨some 64, some "hev1"⟩], [], none, none⟩).filter
            (fun s => s.id == some 64) ∧
      ∀ s ∈ (DashData.video ⟨[⟨some 64, some "avc1"⟩, ⟨some 80, some "hev1"⟩,
          ⟨some 64, some "hev1"⟩], [], none, none⟩).filter
            (fun s => s.id == some 64),
        codec_rank r ≤ codec_rank s) ∧
    select_video_stream 32
        ⟨[⟨some 64, some "avc1"⟩, ⟨some 80, some "hev1"⟩], [], none, none⟩ =
      select_best_video_stream
        ⟨[⟨some 64, some "avc1"⟩, ⟨some 80, some "hev1"⟩], [], none, none⟩ :=
  ⟨(select_video_stream_spec 64
      ⟨[⟨some 64, some "avc1"⟩, ⟨some 80, some "hev1"⟩, ⟨some 64, some "hev1"⟩],
        [], none, none⟩ (by decide)).2 (by decide),
   (select_video_stream_spec 32
      ⟨[⟨some 64, some "avc1"⟩, ⟨some 80, some "hev1"⟩], [], none, none⟩
      (by decide)).1 (by decide)⟩

/-- Claim C10: video selection is deterministic and breaks `(quality, codec)`
ties by manifest order: the selected stream is the first list element whose
key is `le` every element's key, both for the automatic selection and for
the specific-quality codec sort (the model of Python's stable sort). -/
theorem video_selection_stability :
    (∀ d : DashData, d.video ≠ [] →
      select_best_video_stream d =
        d.video.find? (fun s => d.video.all (fun t => streamLE s t))) ∧
    (∀ (q : Nat) (d : DashData), q ≠ 0 →
      d.video.filter (fun s => s.id == some q) ≠ [] →
      select_video_stream q d =
        (d.video.filter (fun s => s.id == some q)).find?
          (fun s => (d.video.filter (fun s => s.id == some q)).all
            (fun t => codecLE s t))) := by
  constructor
  · intro d hd
    unfold select_best_video_stream
    rw [if_neg (by simpa [List.isEmpty_iff] using hd)]
    rw [head?_sortByLe]
    exact firstMinByLe_eq_find? streamLE streamLE_total streamLE_trans d.video
  · intro q d hq hm
    unfold select_video_stream
    rw [if_neg hq]
    cases hflt : d.video.filter (fun s => s.id == some q) with
    | nil => exact absurd hflt hm
    | cons a as =>
      simp only [hflt]
      rw [head?_sortByLe]
      exact firstMinByLe_eq_find? codecLE codecLE_total codecLE_trans (a :: as)

theorem video_selection_stability_witness :
    select_best_video_stream
        ⟨[⟨some 80, some "avc1"⟩, ⟨some 80, some "avc1.64"⟩], [], none, none⟩ =
      some ⟨some 80, some "avc1"⟩ ∧
    select_video_stream 80
        ⟨[⟨some 80, some "avc1"⟩, ⟨some 80, some "avc1.64"⟩], [], none, none⟩ =
      some ⟨some 80, some "avc1"⟩ := by
  constructor
  · rw [video_selection_stability.1
      ⟨[⟨some 80, some "avc1"⟩, ⟨some 80, some "avc1.64"⟩], [], none, none⟩
      (by decide)]
    decide
  · rw [video_selection_stability.2 80
      ⟨[⟨some 80, some "avc1"⟩, ⟨some 80, some "avc1.64"⟩], [], none, none⟩
      (by decide) (by decide)]
    decide

theorem audioFoldStep_snd_le (st : Option StreamDesc × Nat) (s : StreamDesc) :
    (audioFoldStep st s).2 ≤ st.2 := by
  cases hp : pyIndex (s.id.getD 0) AUDIO_QUALITY_PRIORITY with
  | some p =>
    simp only [audioFoldStep, hp]
    by_cases hlt : p < st.2
    · simp only [if_pos hlt]
      exact Nat.le_of_lt hlt
    · simp only [if_neg hlt]
      exact Nat.le_refl _
  | none =>
    cases hst : st.1 with
    | none => simp [audioFoldStep, hp, hst]
    | some b => simp [audioFoldStep, hp, hst]

theorem foldl_audioFoldStep_snd_le :
    ∀ (l : List StreamDesc) (st : Option StreamDesc × Nat),
      (l.foldl audioFoldStep st).2 ≤ st.2
  | [], _ => Nat.le_refl _
  | s :: rest, st =>
    Nat.le_trans (foldl_audioFoldStep_snd_le rest (audioFoldStep st s))
      (audioFoldStep_snd_le st s)

theorem audioFoldStep_le_rank (st : Option StreamDesc × Nat) (t : StreamDesc)
    (h999 : st.2 ≤ 999) : (audioFoldStep st t).2 ≤ rankStd t := by
  cases hp : pyIndex (t.id.getD 0) AUDIO_QUALITY_PRIORITY with
  | some p =>
    simp only [audioFoldStep, rankStd, hp, Option.getD_some]
    by_cases hlt : p < st.2
    · simp only [if_pos hlt]
      omega
    · simp only [if_neg hlt]
      omega
  | none =>
    have hle := audioFoldStep_snd_le st t
    simp only [rankStd, hp, Option.getD_none]
    omega

theorem foldl_audioFoldStep_le_rank :
    ∀ (l : List StreamDesc) (st : Option StreamDesc × Nat), st.2 ≤ 999 →
      ∀ s ∈ l, (l.foldl audioFoldStep st).2 ≤ rankStd s
  | [], _, _, s, hs => by simp at hs
  | t :: rest, st, h999, s, hs => by
    rcases List.mem_cons.mp hs with hst | hst
    · have hstep : (audioFoldStep st t).2 ≤ rankStd t :=
        audioFoldStep_le_rank st t h999
    
      have hmono := foldl_audioFoldStep_snd_le rest (audioFoldStep st t)
      rw [hst]
      calc ((t :: rest).foldl audioFoldStep st).2
          ≤ (audioFoldStep st t).2 := hmono
        _ ≤ rankStd t := hstep
    · exact foldl_audioFoldStep_le_rank rest (audioFoldStep st t)
        (Nat.le_trans (audioFoldStep_snd_le st t) h999) s hst

theorem flacStep_snd_le (d : DashData) (st : Option StreamDesc × Nat) :
    (flacStep d st).2 ≤ st.2 := by
  cases hfa : d.flac with
  | none => simp [flacStep, hfa]
  | some fa =>
    cases hp : pyIndex (fa.id.getD 30251) AUDIO_QUALITY_PRIORITY with
    | some p =>
      simp only [flacStep, hfa, hp]
      by_cases hlt : p < st.2
      · simp only [if_pos hlt]
        exact Nat.le_of_lt hlt
      · simp only [if_neg hlt]
        exact Nat.le_refl _
    | none => simp [flacStep, hfa, hp]

theorem dolbyStep_snd_le (d : DashData) (st : Option StreamDesc × Nat) :
    (dolbyStep d st).2 ≤ st.2 := by
  cases hdo : d.dolby with
  | none => simp [dolbyStep, hdo]
  | some l =>
    cases l with
    | nil => simp [dolbyStep, hdo]
    | cons da rest =>
      cases hp : pyIndex (da.id.getD 30250) AUDIO_QUALITY_PRIORITY with
      | some p =>
        simp only [dolbyStep, hdo, hp]
        by_cases hlt : p < st.2
        · simp only [if_pos hlt]
          exact Nat.le_of_lt hlt
        · simp only [if_neg hlt]
          exact Nat.le_refl _
      | none => simp [dolbyStep, hdo, hp]

theorem flacStep_le_rank (d : DashData) (st : Option StreamDesc × Nat)
    (fa : StreamDesc) (hfa : d.flac = some fa) (h999 : st.2 ≤ 999) :
    (flacStep d st).2 ≤ rankFlac fa := by
  cases hp : pyIndex (fa.id.getD 30251) AUDIO_QUALITY_PRIORITY with
  | some p =>
    simp only [flacStep, rankFlac, hfa, hp, Option.getD_some]
    by_cases hlt : p < st.2
    · simp only [if_pos hlt]
      omega
    · simp only [if_neg hlt]
      omega
  | none =>
    have := flacStep_snd_le d st
    simp only [rankFlac, hp, Option.getD_none]
    omega

theorem dolbyStep_le_rank (d : DashData) (st : Option StreamDesc × Nat)
    (da : StreamDesc) (rest : List StreamDesc)
    (hda : d.dolby = some (da :: rest)) (h999 : st.2 ≤ 999) :
    (dolbyStep d st).2 ≤ rankDolby da := by
  cases hp : pyIndex (da.id.getD 30250) AUDIO_QUALITY_PRIORITY with
  | some p =>
    simp only [dolbyStep, rankDolby, hda, hp, Option.getD_some]
    by_cases hlt : p < st.2
    · simp only [if_pos hlt]
      omega
    · simp only [if_neg hlt]
      omega
  | none =>
    have := dolbyStep_snd_le d st
    simp only [rankDolby, hp, Option.getD_none]
    omega

theorem stInv_audioFoldStep {st : Option StreamDesc × Nat} (s : StreamDesc)
    (h : stInv st) : stInv (audioFoldStep st s) := by
  obtain ⟨hnone, hsome⟩ := h
  cases hp : pyIndex (s.id.getD 0) AUDIO_QUALITY_PRIORITY with
  | some p =>
    by_cases hlt : p < st.2
    · simp only [audioFoldStep, hp, if_pos hlt]
      refine ⟨by simp, ?_⟩
      intro b hb
      simp at hb
      left
      rw [← hb]
      simp [rankStd, hp]
    · simp only [audioFoldStep, hp, if_neg hlt]
      exact ⟨hnone, hsome⟩
  | none =>
    cases hst : st.1 with
    | none =>
      simp only [audioFoldStep, hp, hst]
      refine ⟨by simp, ?_⟩
      intro b hb
      simp at hb
      left
      rw [← hb]
      simp [rankStd, hp, hnone hst]
    | some b' =>
      simp only [audioFoldStep, hp, hst]
      exact ⟨hnone, hsome⟩

theorem stInv_foldl :
    ∀ (l : List StreamDesc) {st : Option StreamDesc × Nat}, stInv st →
      stInv (l.foldl audioFoldStep st)
  | [], _, h => h
  | s :: rest, _, h => stInv_foldl rest (stInv_audioFoldStep s h)

theorem stInv_flacStep (d : DashData) {st : Option StreamDesc × Nat}
    (h : stInv st) : stInv (flacStep d st) := by
  obtain ⟨hnone, hsome⟩ := h
  cases hfa : d.flac with
  | none =>
    simp only [flacStep, hfa]
    exact ⟨hnone, hsome⟩
  | some fa =>
    cases hp : pyIndex (fa.id.getD 30251) AUDIO_QUALITY_PRIORITY with
    | some p =>
      by_cases hlt : p < st.2
      · simp only [flacStep, hfa, hp, if_pos hlt]
        refine ⟨by simp, ?_⟩
        intro b hb
        simp at hb
        right; left
        rw [← hb]
        simp [rankFlac, hp]
      · simp only [flacStep, hfa, hp, if_neg hlt]
        exact ⟨hnone, hsome⟩
    | none =>
      simp only [flacStep, hfa, hp]
      exact ⟨hnone, hsome⟩

theorem stInv_dolbyStep (d : DashData) {st : Option StreamDesc × Nat}
    (h : stInv st) : stInv (dolbyStep d st) := by
  obtain ⟨hnone, hsome⟩ := h
  cases hdo : d.dolby with
  | none =>
    simp only [dolbyStep, hdo]
    exact ⟨hnone, hsome⟩
  | some l =>
    cases l with
    | nil =>
      simp only [dolbyStep, hdo]
      exact ⟨hnone, hsome⟩
    | cons da rest =>
      cases hp : pyIndex (da.id.getD 30250) AUDIO_QUALITY_PRIORITY with
      | some p =>
        by_cases hlt : p < st.2
        · simp only [dolbyStep, hdo, hp, if_pos hlt]
          refine ⟨by simp, ?_⟩
          intro b hb
          simp at hb
          right; right
          rw [← hb]
          simp [rankDolby, hp]
        · simp only [dolbyStep, hdo, hp, if_neg hlt]
          exact ⟨hnone, hsome⟩
      | none =>
        simp only [dolbyStep, hdo, hp]
        exact ⟨hnone, hsome⟩

theorem stdAudioState_snd_le (d : DashData) : (stdAudioState d).2 ≤ 999 := by
  have := foldl_audioFoldStep_snd_le d.audio (none, 999)
  simpa [stdAudioState] using this

theorem stInv_stdAudioState (d : DashData) : stInv (stdAudioState d) :=
  stInv_foldl d.audio ⟨fun _ => rfl, fun b hb => by simp at hb⟩

theorem flacStep_tie (d : DashData) (st : Option StreamDesc × Nat)
    (fa : StreamDesc) (hfa : d.flac = some fa) (hge : st.2 ≤ rankFlac fa) :
    flacStep d st = st := by
  cases hp : pyIndex (fa.id.getD 30251) AUDIO_QUALITY_PRIORITY with
  | some p =>
    have hr : rankFlac fa = p := by simp [rankFlac, hp]
    have hnlt : ¬ p < st.2 := by omega
    simp [flacStep, hfa, hp, hnlt]
  | none => simp [flacStep, hfa, hp]

theorem dolbyStep_tie (d : DashData) (st : Option StreamDesc × Nat)
    (da : StreamDesc) (rest : List StreamDesc)
    (hda : d.dolby = some (da :: rest)) (hge : st.2 ≤ rankDolby da) :
    dolbyStep d st = st := by
  cases hp : pyIndex (da.id.getD 30250) AUDIO_QUALITY_PRIORITY with
  | some p =>
    have hr : rankDolby da = p := by simp [rankDolby, hp]
    have hnlt : ¬ p < st.2 := by omega
    simp [dolbyStep, hda, hp, hnlt]
  | none => simp [dolbyStep, hda, hp]

theorem foldl_unranked_isSome :
    ∀ (l : List StreamDesc) (st : Option StreamDesc × Nat),
      st.1.isSome = true →
      (∀ s ∈ l, pyIndex (s.id.getD 0) AUDIO_QUALITY_PRIORITY = none) →
      l.foldl audioFoldStep st = st
  | [], _, _, _ => rfl
  | s :: rest, st, hsome, hunr => by
    obtain ⟨b, hb⟩ := Option.isSome_iff_exists.mp hsome
    have hstep : audioFoldStep st s = st := by
      simp [audioFoldStep, hunr s (by simp), hb]
    rw [List.foldl_cons, hstep]
    exact foldl_unranked_isSome rest st hsome
      (fun t ht => hunr t (List.mem_cons_of_mem _ ht))

theorem foldl_unranked_none (s : StreamDesc) (rest : List StreamDesc)
    (st : Option StreamDesc × Nat) (hst : st.1 = none)
    (hunr : ∀ t ∈ s :: rest,
      pyIndex (t.id.getD 0) AUDIO_QUALITY_PRIORITY = none) :
    (s :: rest).foldl audioFoldStep st = (some s, st.2) := by
  have hstep : audioFoldStep st s = (some s, st.2) := by
    simp [audioFoldStep, hunr s (by simp), hst]
  rw [List.foldl_cons, hstep]
  exact foldl_unranked_isSome rest (some s, st.2) rfl
    (fun t ht => hunr t (List.mem_cons_of_mem _ ht))

/-- Claim C5: the audio candidate finally recorded by
`select_best_audio_stream` carries a priority that is less than or equal to
the table rank of every candidate it was compared against (every
`audioStreams` entry, the flac track if present, and the first dolby track
if present), and that priority is the chosen candidate's own rank; a flac or
dolby candidate never displaces the current best on a rank tie; an unranked
`audioStreams` entry is adopted only while no candidate has been chosen and
never overwrites an existing candidate; with no candidates at all the
selection is `none`. -/
theorem select_best_audio_stream_spec :
    (∀ d : DashData,
      (∀ s ∈ d.audio, (audioState d).2 ≤ rankStd s) ∧
      (∀ fa, d.flac = some fa → (audioState d).2 ≤ rankFlac fa) ∧
      (∀ da rest, d.dolby = some (da :: rest) →
        (audioState d).2 ≤ rankDolby da) ∧
      (∀ b, select_best_audio_stream d = some b →
        (audioState d).2 = rankStd b ∨ (audioState d).2 = rankFlac b ∨
          (audioState d).2 = rankDolby b) ∧
      (∀ fa, d.flac = some fa → (stdAudioState d).2 ≤ rankFlac fa →
        flacStep d (stdAudioState d) = stdAudioState d) ∧
      (∀ da rest, d.dolby = some (da :: rest) →
        (flacStep d (stdAudioState d)).2 ≤ rankDolby da →
        audioState d = flacStep d (stdAudioState d)) ∧
      (d.audio = [] → d.flac = none → (d.dolby = none ∨ d.dolby = some []) →
        select_best_audio_stream d = none)) ∧
    (∀ (l : List StreamDesc) (st : Option StreamDesc × Nat),
      (∀ s ∈ l, pyIndex (s.id.getD 0) AUDIO_QUALITY_PRIORITY = none) →
      (st.1.isSome = true → l.foldl audioFoldStep st = st) ∧
      (st.1 = none → ∀ s rest, l = s :: rest →
        l.foldl audioFoldStep st = (some s, st.2))) := by
  constructor
  · intro d
    have hstd999 : (stdAudioState d).2 ≤ 999 := stdAudioState_snd_le d
    have hflac999 : (flacStep d (stdAudioState d)).2 ≤ 999 :=
      Nat.le_trans (flacStep_snd_le d _) hstd999
    refine ⟨?_, ?_, ?_, ?_, ?_, ?_, ?_⟩
    · intro s hs
      have h1 : (stdAudioState d).2 ≤ rankStd s :=
        foldl_audioFoldStep_le_rank d.audio (none, 999) (by omega) s hs
      have h2 := flacStep_snd_le d (stdAudioState d)
      have h3 := dolbyStep_snd_le d (flacStep d (stdAudioState d))
      unfold audioState
      omega
    · intro fa hfa
      have h1 : (flacStep d (stdAudioState d)).2 ≤ rankFlac fa :=
        flacStep_le_rank d _ fa hfa hstd999
      have h2 := dolbyStep_snd_le d (flacStep d (stdAudioState d))
      unfold audioState
      omega
    · intro da rest hda
      exact dolbyStep_le_rank d _ da rest hda hflac999
    · intro b hb
      have hinv : stInv (audioState d) :=
        stInv_dolbyStep d (stInv_flacStep d (stInv_stdAudioState d))
      exact hinv.2 b hb
    · intro fa hfa hge
      exact flacStep_tie d _ fa hfa hge
    · intro da rest hda hge
      exact dolbyStep_tie d _ da rest hda hge
    · intro ha hf hdo
      unfold select_best_audio_stream audioState stdAudioState
      rw [ha]
      simp only [List.foldl_nil]
      rcases hdo with hdo | hdo <;> simp [flacStep, dolbyStep, hf, hdo]
  · intro l st hunr
    constructor
    · intro hsome
      exact foldl_unranked_isSome l st hsome hunr
    · intro hnone s rest hl
      subst hl
      exact foldl_unranked_none s rest st hnone hunr

theorem select_best_audio_stream_spec_witness :
    (audioState ⟨[], [⟨some 7777, none⟩, ⟨some 30216, none⟩],
        some ⟨some 30216, none⟩, some [⟨some 30216, none⟩]⟩).2 ≤
      rankStd ⟨some 30216, none⟩ ∧
    (audioState ⟨[], [⟨some 7777, none⟩, ⟨some 30216, none⟩],
        some ⟨some 30216, none⟩, some [⟨some 30216, none⟩]⟩).2 ≤
      rankFlac ⟨some 30216, none⟩ ∧
    ((audioState ⟨[], [⟨some 7777, none⟩, ⟨some 30216, none⟩],
        some ⟨some 30216, none⟩, some [⟨some 30216, none⟩]⟩).2 =
      rankStd ⟨some 30216, none⟩ ∨
     (audioState ⟨[], [⟨some 7777, none⟩, ⟨some 30216, none⟩],
        some ⟨some 30216, none⟩, some [⟨some 30216, none⟩]⟩).2 =
      rankFlac ⟨some 30216, none⟩ ∨
     (audioState ⟨[], [⟨some 7777, none⟩, ⟨some 30216, none⟩],
        some ⟨some 30216, none⟩, some [⟨some 30216, none⟩]⟩).2 =
      rankDolby ⟨some 30216, none⟩) ∧
    flacStep ⟨[], [⟨some 7777, none⟩, ⟨some 30216, none⟩],
        some ⟨some 30216, none⟩, some [⟨some 30216, none⟩]⟩
      (stdAudioState ⟨[], [⟨some 7777, none⟩, ⟨some 30216, none⟩],
        some ⟨some 30216, none⟩, some [⟨some 30216, none⟩]⟩) =
      stdAudioState ⟨[], [⟨some 7777, none⟩, ⟨some 30216, none⟩],
        some ⟨some 30216, none⟩, some [⟨some 30216, none⟩]⟩ ∧
    select_best_audio_stream ⟨[], [], none, none⟩ = none ∧
    ([⟨some 7777, none⟩] : List StreamDesc).foldl audioFoldStep
      (some ⟨some 30280, none⟩, 2) = (some ⟨some 30280, none⟩, 2) ∧
    ([⟨some 7777, none⟩] : List StreamDesc).foldl audioFoldStep
      (none, 999) = (some ⟨some 7777, none⟩, 999) := by
  refine ⟨?_, ?_, ?_, ?_, ?_, ?_, ?_⟩
  · exact (select_best_audio_stream_spec.1 _).1 ⟨some 30216, none⟩ (by decide)
  · exact (select_best_audio_stream_spec.1 _).2.1 ⟨some 30216, none⟩ rfl
  · exact (select_best_audio_stream_spec.1 _).2.2.2.1 ⟨some 30216, none⟩ (by decide)
  · exact (select_best_audio_stream_spec.1 _).2.2.2.2.1 ⟨some 30216, none⟩ rfl
      (by decide)
  · exact (select_best_audio_stream_spec.1 _).2.2.2.2.2.2 rfl rfl (Or.inl rfl)
  · exact (select_best_audio_stream_spec.2 [⟨some 7777, none⟩]
      (some ⟨some 30280, none⟩, 2) (by decide)).1 rfl
  · exact (select_best_audio_stream_spec.2 [⟨some 7777, none⟩]
      (none, 999) (by decide)).2 rfl ⟨some 7777, none⟩ [] rfl

theorem runStreamGo_success_exit :
    ∀ (chunks : List Nat) (total : Nat) (cancelAt excAt : Option Nat)
      (i current w : Nat) (rem : List Nat),
      runStreamGo total cancelAt excAt i current chunks = .success w rem →
      rem = [] ∨ rem.head? = some 0 ∨ total ≤ w
  | [], total, ca, ea, i, current, w, rem, h => by
    simp only [runStreamGo] at h
    split_ifs at h with h1 h2 h3 <;> simp_all
  | c :: cs, total, ca, ea, i, current, w, rem, h => by
    simp only [runStreamGo] at h
    split_ifs at h with h1 h2 h3 h4
    · obtain ⟨hw, hr⟩ := h
      right; left
      simp [h4]
    · exact runStreamGo_success_exit cs total ca ea (i + 1) (current + c) w rem h
    · obtain ⟨hw, hr⟩ := h
      right; right
      omega

/-- Claim C1 (amended): the download loop exits in exactly three ways - the
chunk stream is exhausted, an empty chunk is read, or the accumulated bytes
have reached the reported total (the `while current < total` guard fails) -
and in every case the function reports success; in particular with a
reported total of 0 the loop body never runs and `download_stream` returns
success immediately with nothing written and the stream unread. -/
theorem download_loop_exit_spec :
    (∀ (total : Nat) (chunks : List Nat) (cancelAt excAt : Option Nat)
      (w : Nat) (rem : List Nat),
      runStream total chunks cancelAt excAt = .success w rem →
      rem = [] ∨ rem.head? = some 0 ∨ total ≤ w) ∧
    (∀ (chunks : List Nat) (cancelAt excAt : Option Nat),
      runStream 0 chunks cancelAt excAt = .success 0 chunks) ∧
    (∀ (chunks : List Nat) (excAt : Option Nat),
      download_stream ⟨false, 0, chunks, excAt⟩ = (true, some 0)) := by
  refine ⟨?_, ?_, ?_⟩
  · intro total chunks ca ea w rem h
    exact runStreamGo_success_exit chunks total ca ea 0 0 w rem h
  · intro chunks ca ea
    cases chunks <;> rfl
  · intro chunks ea
    have h : runStream 0 chunks none ea = .success 0 chunks := by
      cases chunks <;> rfl
    simp [download_stream, h]

theorem download_loop_exit_spec_witness :
    ([2] : List Nat) = [] ∨ ([2] : List Nat).head? = some 0 ∨ 3 ≤ 4 :=
  download_loop_exit_spec.1 3 [2, 2, 2] none none 4 [2] (by decide)

/-- Claim C1 counterexample: with reported total 0 and a non-empty chunk
stream the loop exits immediately with success, nothing written and the
stream unread - not via the end-of-stream marker, contradicting the claim
that success is reached only via end-of-stream and that a zero total still
reads to end-of-stream. -/
theorem download_loop_total_zero_cex :
    runStream 0 [5] none none = .success 0 [5] ∧
    download_stream ⟨false, 0, [5], none⟩ = (true, some 0) ∧
    ([5] : List Nat) ≠ [] ∧ ([5] : List Nat).head? ≠ some 0 := by
  refine ⟨rfl, rfl, by decide, by decide⟩

theorem prefixSum_zero (cs : List Nat) : prefixSum cs 0 = 0 := rfl

theorem prefixSum_cons (c : Nat) (cs : List Nat) (j : Nat) :
    prefixSum (c :: cs) (j + 1) = c + prefixSum cs j := by
  simp [prefixSum]

theorem runStreamGo_reaches_exc :
    ∀ (i : Nat) (cs : List Nat) (t i0 cur : Nat),
      i ≤ cs.length →
      (∀ j, j ≤ i → cur + prefixSum cs j < t) →
      (∀ c ∈ cs.take i, c ≠ 0) →
      runStreamGo t none (some (i0 + i)) i0 cur cs =
        .failed (cur + prefixSum cs i)
  | 0, cs, t, i0, cur, hlen, hlt, hnz => by
    have hcur : cur < t := by
      have := hlt 0 (Nat.le_refl 0)
      simpa [prefixSum_zero] using this
    cases cs with
    | nil =>
      simp only [runStreamGo, Nat.add_zero, prefixSum_zero]
      rw [if_pos hcur]
      simp [cancelHit]
    | cons c cs' =>
      simp only [runStreamGo, Nat.add_zero, prefixSum_zero]
      rw [if_pos hcur]
      simp [cancelHit]
  | i + 1, cs, t, i0, cur, hlen, hlt, hnz => by
    cases cs with
    | nil => simp at hlen
    | cons c cs' =>
      have hcur : cur < t := by
        have := hlt 0 (Nat.zero_le _)
        simpa [prefixSum_zero] using this
      have hc : c ≠ 0 := hnz c (by simp [List.take_succ_cons])
      have hne : ¬ (some (i0 + (i + 1)) = some i0) := by
        intro h
        injection h with h
        omega
      simp only [runStreamGo]
      rw [if_pos hcur]
      simp only [cancelHit, Bool.false_eq_true, if_false]
      rw [if_neg hne, if_neg hc]
      have harg : i0 + (i + 1) = (i0 + 1) + i := by omega
      rw [harg]
      have hrec := runStreamGo_reaches_exc i cs' t (i0 + 1) (cur + c)
        (by simpa using hlen)
        (by
          intro j hj
          have := hlt (j + 1) (by omega)
          rw [prefixSum_cons] at this
          omega)
        (by
          intro x hx
          exact hnz x (by simp [List.take_succ_cons, hx]))
      rw [hrec]
      rw [prefixSum_cons]
      congr 1
      omega

/-- Claim C3 (amended): a transport exception during session creation yields
a failure result with no file created; a transport exception at chunk read
`i` (reached when every earlier prefix of received bytes stays below the
total and no earlier chunk is empty) aborts the loop and yields a failure
result with the partially written file still present, holding the bytes
written so far - the download operation itself never deletes the partial
file; deletion is left to the caller. -/
theorem download_stream_exception_spec :
    (∀ (total : Nat) (chunks : List Nat) (excAt : Option Nat),
      download_stream ⟨true, total, chunks, excAt⟩ = (false, none)) ∧
    (∀ (cs : List Nat) (t i : Nat),
      i ≤ cs.length →
      (∀ j, j ≤ i → prefixSum cs j < t) →
      (∀ c ∈ cs.take i, c ≠ 0) →
      runStream t cs none (some i) = .failed (prefixSum cs i) ∧
      download_stream ⟨false, t, cs, some i⟩ =
        (false, some (prefixSum cs i))) := by
  constructor
  · intro total chunks ea
    simp [download_stream]
  · intro cs t i hlen hlt hnz
    have hrun : runStream t cs none (some i) = .failed (prefixSum cs i) := by
      have h := runStreamGo_reaches_exc i cs t 0 0 hlen
        (by intro j hj; simpa using hlt j hj) hnz
      simpa [runStream] using h
    refine ⟨hrun, ?_⟩
    simp [download_stream, hrun]

theorem download_stream_exception_spec_witness :
    download_stream ⟨true, 10, [1], none⟩ = (false, none) ∧
    runStream 8 [4, 4] none (some 1) = .failed (prefixSum [4, 4] 1) ∧
    download_stream ⟨false, 8, [4, 4], some 1⟩ =
      (false, some (prefixSum [4, 4] 1)) := by
  refine ⟨download_stream_exception_spec.1 10 [1] none, ?_, ?_⟩
  · exact (download_stream_exception_spec.2 [4, 4] 8 1 (by decide) (by decide)
      (by decide)).1
  · exact (download_stream_exception_spec.2 [4, 4] 8 1 (by decide) (by decide)
      (by decide)).2

/-- Claim C3 counterexample: a transport exception at the second chunk read
returns a failure, but the partially written file (4 bytes) is left in
place - `download_stream` does not delete it, contradicting the claim that
the operation itself deletes the partial file. -/
theorem download_stream_keeps_partial_cex :
    download_stream ⟨false, 8, [4, 4], some 1⟩ = (false, some 4) ∧
    (download_stream ⟨false, 8, [4, 4], some 1⟩).2 ≠ none := by
  constructor <;> decide

/-- Claim C9: when the merge tool is not invocable the merge fails with
`toolMissing` and no file is touched; a non-zero exit fails with
`mergeFailed` leaving both inputs in place; a zero exit succeeds, deletes
both temp inputs and leaves the final output; more generally every non-`ok`
outcome leaves the files exactly as they were. -/
theorem merge_video_audio_spec (e : MergeEnv) (fs : Files) :
    (e.ffmpegOk = false → merge_video_audio e fs = (.toolMissing, fs)) ∧
    (e.ffmpegOk = true → e.runRaises = false → e.exitCode ≠ 0 →
      merge_video_audio e fs = (.mergeFailed, fs)) ∧
    (e.ffmpegOk = true → e.runRaises = false → e.exitCode = 0 →
      merge_video_audio e fs =
        (.ok, { fs with tempVideo := false, tempAudio := false, final := true })) ∧
    ((merge_video_audio e fs).1 ≠ .ok → (merge_video_audio e fs).2 = fs) := by
  refine ⟨?_, ?_, ?_, ?_⟩
  · intro h
    simp [merge_video_audio, h]
  · intro h1 h2 h3
    simp [merge_video_audio, h1, h2, h3]
  · intro h1 h2 h3
    simp [merge_video_audio, h1, h2, h3]
  · intro h
    by_cases h1 : e.ffmpegOk
    · by_cases h2 : e.runRaises
      · simp [merge_video_audio, h1, h2]
      · by_cases h3 : e.exitCode = 0
        · exact absurd (by simp [merge_video_audio, h1, h2, h3]) h
        · simp [merge_video_audio, h1, h2, h3]
    · simp [merge_video_audio, h1]

theorem merge_video_audio_spec_witness :
    merge_video_audio ⟨false, false, 0⟩ ⟨true, true, false⟩ =
      (.toolMissing, ⟨true, true, false⟩) ∧
    merge_video_audio ⟨true, false, 1⟩ ⟨true, true, false⟩ =
      (.mergeFailed, ⟨true, true, false⟩) ∧
    merge_video_audio ⟨true, false, 0⟩ ⟨true, true, false⟩ =
      (.ok, ⟨false, false, true⟩) :=
  ⟨(merge_video_audio_spec ⟨false, false, 0⟩ ⟨true, true, false⟩).1 rfl,
   (merge_video_audio_spec ⟨true, false, 1⟩ ⟨true, true, false⟩).2.1 rfl rfl
     (by decide),
   (merge_video_audio_spec ⟨true, false, 0⟩ ⟨true, true, false⟩).2.2.1 rfl rfl
     rfl⟩

theorem guiIsOk_fileCreated {g : GuiDl} (h : g.isOk = true) :
    g.fileCreated = true := by
  cases g <;> simp [GuiDl.isOk, GuiDl.fileCreated] at h ⊢

/-- Claim C2 counterexample: a job whose cancellation flag is observed before
the first chunk read of the video stream (the flag set mid-download) is
reported with the video-stream failure message, not the cancellation
message: a job cancelled mid-download is reported as a failure. -/
theorem cancelled_mid_download_reported_failed_cex :
    guiDashJob ⟨⟨false, 10, [5, 5], none⟩, some 0, false, false,
        ⟨false, 0, [], none⟩, none, false, ⟨true, false, 0⟩⟩ =
      ((false, MSG_VIDEO_FAILED), ⟨false, false, false⟩) ∧
    MSG_VIDEO_FAILED ≠ MSG_CANCELLED := by
  constructor
  · rfl
  · decide

/-- Claim C2 (amended): in the GUI thread, every downloading-stage failure or
cancellation outcome (all `False` outcomes except a merge failure, which
leaves the temp inputs in place) deletes all temp files before the job
returns; cancellation observed at the two inter-stage checkpoints is
reported with the cancellation message; but cancellation that aborts a
chunk loop is reported with that stream's failure message, because the
loop returns the same `False` as a transport error.  In the CLI path
`download_video_async`, a video-stream failure returns `False` without
deleting the partial video temp file. -/
theorem download_job_cleanup_spec :
    (∀ e : GuiEnv,
      ((guiDashJob e).1.1 = false → (guiDashJob e).1.2 ≠ MSG_MERGE_FAILED →
        (guiDashJob e).2 = ⟨false, false, false⟩) ∧
      ((runGuiStream e.videoRun e.videoCancelAt).isOk = true →
        e.cancelAfterVideo = true →
        (guiDashJob e).1 = (false, MSG_CANCELLED)) ∧
      ((runGuiStream e.videoRun e.videoCancelAt).isOk = true →
        e.cancelAfterVideo = false → e.hasAudio = true →
        (runGuiStream e.audioRun e.audioCancelAt).isOk = true →
        e.cancelAfterAudio = true →
        (guiDashJob e).1 = (false, MSG_CANCELLED)) ∧
      (∀ w, runGuiStream e.videoRun e.videoCancelAt = .cancelled w →
        (guiDashJob e).1 = (false, MSG_VIDEO_FAILED))) ∧
    (∀ (dvr dar : StreamRun) (hasAudio : Bool) (me : MergeEnv),
      (download_stream dvr).1 = false →
      cliDashJob dvr dar hasAudio me =
        (false, ⟨(download_stream dvr).2.isSome, false, false⟩)) := by
  constructor
  · intro e
    by_cases hv : (runGuiStream e.videoRun e.videoCancelAt).isOk = true
    · by_cases hcv : e.cancelAfterVideo = true
      · have hjob : guiDashJob e =
            ((false, MSG_CANCELLED), ⟨false, false, false⟩) := by
          simp [guiDashJob, hv, hcv]
        refine ⟨?_, ?_, ?_, ?_⟩
        · intro _ _; rw [hjob]
        · intro _ _; rw [hjob]
        · intro _ h2 _ _ _; exact absurd hcv (by simp [h2])
        · intro w hw
          rw [hw] at hv
          simp [GuiDl.isOk] at hv
      · by_cases hha : e.hasAudio = true
        · by_cases hav : (runGuiStream e.audioRun e.audioCancelAt).isOk = true
          · by_cases hca : e.cancelAfterAudio = true
            · have hjob : guiDashJob e =
                  ((false, MSG_CANCELLED), ⟨false, false, false⟩) := by
                simp [guiDashJob, hv, hcv, hha, hav, hca]
              refine ⟨?_, ?_, ?_, ?_⟩
              · intro _ _; rw [hjob]
              · intro _ h2; exact absurd h2 hcv
              · intro _ _ _ _ _; rw [hjob]
              · intro w hw
                rw [hw] at hv
                simp [GuiDl.isOk] at hv
            · have hfc := guiIsOk_fileCreated hv
              have hfca := guiIsOk_fileCreated hav
              by_cases hm : (merge_video_audio e.merge ⟨true, true, false⟩).1 =
                MergeResult.ok
              · have hjob : guiDashJob e = ((true, MSG_DONE),
                    (merge_video_audio e.merge ⟨true, true, false⟩).2) := by
                  simp [guiDashJob, hv, hcv, hha, hav, hca, hfc, hfca, hm]
                refine ⟨?_, ?_, ?_, ?_⟩
                · intro h1 _
                  rw [hjob] at h1
                  simp at h1
                · intro _ h2; exact absurd h2 hcv
                · intro _ _ _ _ h5; exact absurd h5 hca
                · intro w hw
                  rw [hw] at hv
                  simp [GuiDl.isOk] at hv
              · have hjob : guiDashJob e = ((false, MSG_MERGE_FAILED),
                    (merge_video_audio e.merge ⟨true, true, false⟩).2) := by
                  simp [guiDashJob, hv, hcv, hha, hav, hca, hfc, hfca, hm]
                refine ⟨?_, ?_, ?_, ?_⟩
                · intro _ h2
                  rw [hjob] at h2
                  exact absurd rfl h2
                · intro _ h2; exact absurd h2 hcv
                · intro _ _ _ _ h5; exact absurd h5 hca
                · intro w hw
                  rw [hw] at hv
                  simp [GuiDl.isOk] at hv
          · have hjob : guiDashJob e =
                ((false, MSG_AUDIO_FAILED), ⟨false, false, false⟩) := by
              simp [guiDashJob, hv, hcv, hha, hav]
            refine ⟨?_, ?_, ?_, ?_⟩
            · intro _ _; rw [hjob]
            · intro _ h2; exact absurd h2 hcv
            · intro _ _ _ h4 _; exact absurd h4 hav
            · intro w hw
              rw [hw] at hv
              simp [GuiDl.isOk] at hv
        · have hjob : guiDashJob e = ((true, MSG_DONE), ⟨false, false, true⟩) := by
            simp [guiDashJob, hv, hcv, hha]
          refine ⟨?_, ?_, ?_, ?_⟩
          · intro h1 _
            rw [hjob] at h1
            simp at h1
          · intro _ h2; exact absurd h2 hcv
          · intro _ _ h3 _ _; exact absurd h3 hha
          · intro w hw
            rw [hw] at hv
            simp [GuiDl.isOk] at hv
    · have hjob : guiDashJob e =
          ((false, MSG_VIDEO_FAILED), ⟨false, false, false⟩) := by
        simp [guiDashJob, hv]
      refine ⟨?_, ?_, ?_, ?_⟩
      · intro _ _; rw [hjob]
      · intro h1 _; exact absurd h1 hv
      · intro h1 _ _ _ _; exact absurd h1 hv
      · intro w hw; rw [hjob]
  · intro dvr dar hasAudio me hfail
    rcases hdl : download_stream dvr with ⟨vok, vfile⟩
    rw [hdl] at hfail
    simp at hfail
    subst hfail
    simp [cliDashJob, hdl]

theorem download_job_cleanup_spec_witness :
    (guiDashJob ⟨⟨false, 10, [5, 5], some 1⟩, none, false, false,
        ⟨false, 0, [], none⟩, none, false, ⟨true, false, 0⟩⟩).2 =
      ⟨false, false, false⟩ ∧
    (guiDashJob ⟨⟨false, 0, [], none⟩, none, true, false,
        ⟨false, 0, [], none⟩, none, false, ⟨true, false, 0⟩⟩).1 =
      (false, MSG_CANCELLED) ∧
    (guiDashJob ⟨⟨false, 10, [5, 5], none⟩, some 0, false, false,
        ⟨false, 0, [], none⟩, none, false, ⟨true, false, 0⟩⟩).1 =
      (false, MSG_VIDEO_FAILED) ∧
    cliDashJob ⟨false, 8, [4, 4], some 1⟩ ⟨false, 0, [], none⟩ false
        ⟨true, false, 0⟩ =
      (false, ⟨true, false, false⟩) := by
  refine ⟨?_, ?_, ?_, ?_⟩
  · exact (download_job_cleanup_spec.1 _).1 (by decide) (by decide)
  · exact (download_job_cleanup_spec.1 _).2.1 (by decide) rfl
  · exact (download_job_cleanup_spec.1 _).2.2.2 0 (by decide)
  · have h := download_job_cleanup_spec.2 ⟨false, 8, [4, 4], some 1⟩
      ⟨false, 0, [], none⟩ false ⟨true, false, 0⟩ (by decide)
    rw [h]
    decide

theorem dropWhile_head?_not (p : Char → Bool) :
    ∀ (l : List Char) (c : Char), (l.dropWhile p).head? = some c → p c = false
  | [], c, h => by simp at h
  | x :: xs, c, h => by
    by_cases hx : p x = true
    · rw [List.dropWhile_cons_of_pos hx] at h
      exact dropWhile_head?_not p xs c h
    · rw [List.dropWhile_cons_of_neg hx] at h
      simp at h
      rw [← h]
      simpa using hx

theorem mem_dropWhile_subset (p : Char → Bool) :
    ∀ (l : List Char) (c : Char), c ∈ l.dropWhile p → c ∈ l
  | [], c, h => by simp at h
  | x :: xs, c, h => by
    by_cases hx : p x = true
    · rw [List.dropWhile_cons_of_pos hx] at h
      exact List.mem_cons_of_mem _ (mem_dropWhile_subset p xs c h)
    · rw [List.dropWhile_cons_of_neg hx] at h
      exact h

theorem mem_rdropWhile_subset (p : Char → Bool) (l : List Char) (c : Char)
    (h : c ∈ l.rdropWhile p) : c ∈ l := by
  simp only [List.rdropWhile] at h
  rw [← List.mem_reverse]
  exact mem_dropWhile_subset p l.reverse c (by simpa using h)

theorem head?_of_listPrefix {l₁ l₂ : List Char} {c : Char} (h : l₁ <+: l₂)
    (hc : l₁.head? = some c) : l₂.head? = some c := by
  obtain ⟨t, rfl⟩ := h
  cases l₁ with
  | nil => simp at hc
  | cons x xs => simpa using hc

theorem head?_take_pos (l : List Char) (n : Nat) (hn : 0 < n) :
    (l.take n).head? = l.head? := by
  cases l with
  | nil => simp
  | cons x xs =>
    cases n with
    | zero => omega
    | succ m => simp

theorem pyStripChars_head?_not (bad : Char → Bool) (l : List Char) (c : Char)
    (h : (pyStripChars bad l).head? = some c) : bad c = false := by
  have hpre : (l.dropWhile bad).rdropWhile bad <+: l.dropWhile bad :=
    List.rdropWhile_prefix bad (l.dropWhile bad)
  have hhead : (l.dropWhile bad).head? = some c :=
    head?_of_listPrefix hpre h
  exact dropWhile_head?_not bad l c hhead

/-- Claim C7 counterexample: `sanitize_filename` replaces each illegal
character with an underscore rather than removing it, so
`sanitize("a<b>c?.mp4")` is `"a_b_c_.mp4"`, not the claimed string with
those characters stripped out. -/
theorem sanitize_filename_replaces_cex :
    sanitize_filename "a<b>c?.mp4" = "a_b_c_.mp4" ∧
    sanitize_filename "a<b>c?.mp4" ≠ "abc.mp4" := by
  constructor <;> decide

/-- Claim C7 (amended): `sanitize_filename` replaces (not removes) each of
the characters `<>:"/\|?*` and each control character with an underscore,
trims leading and trailing spaces and dots before truncating to 200
characters, and never returns an empty string (falling back to "video");
consequently the result contains no illegal character and never starts
with a space or a dot, and on the spec's example input the result is
"a_b_c_.mp4". -/
theorem sanitize_filename_spec :
    (∀ s : String,
      sanitize_filename s ≠ "" ∧
      (sanitize_filename s).length ≤ 200 ∧
      (∀ c ∈ (sanitize_filename s).data, illegalChar c = false) ∧
      (∀ c, (sanitize_filename s).data.head? = some c →
        (c == ' ' || c == '.') = false)) ∧
    sanitize_filename "a<b>c?.mp4" = "a_b_c_.mp4" := by
  constructor
  · intro s
    set l0 := s.data.map (fun c => if illegalChar c then '_' else c) with hl0
    set l1 := pyStripChars (fun c => c == ' ' || c == '.') l0 with hl1
    set l2 := if l1.length > 200 then l1.take 200 else l1 with hl2
    have hsan : sanitize_filename s = if l2.isEmpty then "video" else ⟨l2⟩ := rfl
    have hmem0 : ∀ c ∈ l0, illegalChar c = false := by
      intro c hc
      rw [hl0] at hc
      obtain ⟨a, _, ha⟩ := List.mem_map.mp hc
      by_cases hia : illegalChar a = true
      · rw [if_pos hia] at ha
        rw [← ha]
        decide
      · rw [if_neg hia] at ha
        rw [← ha]
        simpa using hia
    have hmem1 : ∀ c ∈ l1, illegalChar c = false := by
      intro c hc
      exact hmem0 c (mem_dropWhile_subset _ l0 c
        (mem_rdropWhile_subset _ (l0.dropWhile _) c hc))
    have hmem2 : ∀ c ∈ l2, illegalChar c = false := by
      intro c hc
      rw [hl2] at hc
      by_cases hlen : l1.length > 200
      · rw [if_pos hlen] at hc
        exact hmem1 c ((List.take_sublist 200 l1).mem hc)
      · rw [if_neg hlen] at hc
        exact hmem1 c hc
    have hhead2 : ∀ c, l2.head? = some c → (c == ' ' || c == '.') = false := by
      intro c hc
      rw [hl2] at hc
      have hc1 : l1.head? = some c := by
        by_cases hlen : l1.length > 200
        · rw [if_pos hlen] at hc
          rw [← head?_take_pos l1 200 (by omega)]
          exact hc
        · rw [if_neg hlen] at hc
          exact hc
      exact pyStripChars_head?_not _ l0 c hc1
    by_cases hemp : l2.isEmpty = true
    · rw [hsan, if_pos hemp]
      refine ⟨by decide, by decide, by decide, by decide⟩
    · rw [hsan, if_neg hemp]
      rw [List.isEmpty_iff] at hemp
      refine ⟨?_, ?_, ?_, ?_⟩
      · intro h
        apply hemp
        have : (⟨l2⟩ : String).data = ("" : String).data := by rw [h]
        simpa using this
      · show l2.length ≤ 200
        rw [hl2]
        by_cases hlen : l1.length > 200
        · rw [if_pos hlen]
          simp
        · rw [if_neg hlen]
          omega
      · intro c hc
        exact hmem2 c hc
      · intro c hc
        exact hhead2 c hc
  · decide

theorem sanitize_filename_spec_witness :
    sanitize_filename " .x<y. " ≠ "" ∧
    (sanitize_filename " .x<y. ").length ≤ 200 ∧
    illegalChar 'x' = false ∧
    ('x' == ' ' || 'x' == '.') = false := by
  obtain ⟨h1, h2, h3, h4⟩ := sanitize_filename_spec.1 " .x<y. "
  exact ⟨h1, h2, h3 'x' (by decide), h4 'x' (by decide)⟩

/-- Claim C8 counterexample: a URL whose `p` query parameter is `0` is
recognized (bvid set) but the returned page is 0, violating `page ≥ 1`. -/
theorem parse_video_url_page_zero_cex :
    parse_video_url "https://x/video/BV1xx411c7mD?p=0" =
      (some "BV1xx411c7mD", none, 0) ∧
    ¬ ((1 : Int) ≤ 0) := by
  constructor
  · rfl
  · decide

/-- Claim C8 (amended): whenever `parse_video_url` recognizes an id, exactly
one of bvid/aid is set; the returned page is 1 except when it was parsed
from the `p` query parameter by `int()`, in which case the integer is
returned unchecked (it may be 0 or negative). -/
theorem parse_video_url_spec (url : String) :
    ((parse_video_url url).1.isSome ∨ (parse_video_url url).2.1.isSome) →
      ((parse_video_url url).1.isSome ↔ ¬ (parse_video_url url).2.1.isSome) ∧
      ((parse_video_url url).2.2 = 1 ∨
        ∃ v, getParamP (splitAll '&'
            ((pyUrlparse (pyStrip url)).2.data)) = some v ∧
          pyInt v = some (parse_video_url url).2.2) := by
  by_cases h1 : (startsWithBVupper (pyStrip url).data &&
      decide ((pyStrip url).length ≤ 12)) = true
  · simp only [parse_video_url, h1]
    intro _
    exact ⟨by simp, Or.inl (by simp)⟩
  · rw [Bool.not_eq_true] at h1
    cases h2 : matchAvFull (pyStrip url).data with
    | some n =>
      simp only [parse_video_url, h1, Bool.false_eq_true, if_false, h2]
      intro _
      exact ⟨by simp, Or.inl (by simp)⟩
    | none =>
      cases h3 : findBV (pyUrlparse (pyStrip url)).1.data with
      | some bv =>
        cases h4 : getParamP (splitAll '&' (pyUrlparse (pyStrip url)).2.data) with
        | none =>
          simp only [parse_video_url, h1, Bool.false_eq_true, if_false, h2, h3, h4]
          intro _
          exact ⟨by simp, Or.inl (by simp)⟩
        | some v =>
          cases h5 : pyInt v with
          | some p =>
            simp only [parse_video_url, h1, Bool.false_eq_true, if_false,
              h2, h3, h4, h5]
            intro _
            exact ⟨by simp, Or.inr ⟨v, rfl, h5⟩⟩
          | none =>
            simp only [parse_video_url, h1, Bool.false_eq_true, if_false,
              h2, h3, h4, h5]
            intro hrec
            simp at hrec
      | none =>
        cases h6 : findAV (pyUrlparse (pyStrip url)).1.data with
        | some n =>
          cases h4 : getParamP (splitAll '&' (pyUrlparse (pyStrip url)).2.data) with
          | none =>
            simp only [parse_video_url, h1, Bool.false_eq_true, if_false,
              h2, h3, h6, h4]
            intro _
            exact ⟨by simp, Or.inl (by simp)⟩
          | some v =>
            cases h5 : pyInt v with
            | some p =>
              simp only [parse_video_url, h1, Bool.false_eq_true, if_false,
                h2, h3, h6, h4, h5]
              intro _
              exact ⟨by simp, Or.inr ⟨v, rfl, h5⟩⟩
            | none =>
              simp only [parse_video_url, h1, Bool.false_eq_true, if_false,
                h2, h3, h6, h4, h5]
              intro hrec
              simp at hrec
        | none =>
          simp only [parse_video_url, h1, Bool.false_eq_true, if_false,
            h2, h3, h6]
          intro hrec
          simp at hrec

theorem parse_video_url_spec_witness :
    ((parse_video_url "https://x/video/BV1xx411c7mD?p=3").1.isSome ↔
      ¬ (parse_video_url "https://x/video/BV1xx411c7mD?p=3").2.1.isSome) ∧
    ((parse_video_url "https://x/video/BV1xx411c7mD?p=3").2.2 = 1 ∨
      ∃ v, getParamP (splitAll '&'
          ((pyUrlparse (pyStrip "https://x/video/BV1xx411c7mD?p=3")).2.data)) =
            some v ∧
        pyInt v = some (parse_video_url "https://x/video/BV1xx411c7mD?p=3").2.2) :=
  parse_video_url_spec "https://x/video/BV1xx411c7mD?p=3" (by decide)

end BiliDownloader
